import Mathlib

/-!
Shallow embedding of the identity-traversal program (src/src/hostmask.rs and
src/src/main.rs) and proofs about the frozen claims.

Modelling conventions:
* Rust strings are Lean strings; byte-level slicing is modelled explicitly on
  the UTF-8 encoding where the source indexes by bytes.
* A Rust panic is modelled as the value none of an Option-typed result.
* The two regular expressions of hostmask.rs are embedded as backtracking
  matchers with the regex crate's leftmost-first semantics: leftmost starting
  position first, and at a fixed position alternatives in written order with
  greedy quantifiers.  The character classes for a digit and for a word
  character are modelled over the ASCII range.
* The standard library parsers Ipv4Addr::from_str, Ipv6Addr::from_str and
  IpAddr::from_str that the source calls are embedded following the std
  parser: octets of at most 3 digits without a zero prefix, hex groups of at
  most 4 digits, one optional double-colon, an optional embedded IPv4 tail,
  and the whole input must be consumed.
-/

namespace IdentityTraversal

/-- ASCII range test on the code point of a character. -/
def inRange (c : Char) (lo hi : Nat) : Bool :=
  lo ≤ c.toNat && c.toNat ≤ hi

/-- ASCII decimal digit, modelling the regex class of a digit. -/
def isDig (c : Char) : Bool := inRange c 48 57

/-- ASCII hexadecimal digit. -/
def isHexDig (c : Char) : Bool :=
  inRange c 48 57 || inRange c 65 70 || inRange c 97 102

/-- ASCII word character, modelling the regex word class used by the
word-boundary assertion. -/
def isWordChar (c : Char) : Bool :=
  inRange c 48 57 || inRange c 65 90 || inRange c 97 122 || c = '_'

/-- Numeric value of a decimal digit character. -/
def digitVal (c : Char) : Nat := c.toNat - 48

/-- Numeric value of a hexadecimal digit character. -/
def hexDigitVal (c : Char) : Nat :=
  if c.toNat ≤ 57 then c.toNat - 48
  else if c.toNat ≤ 70 then c.toNat - 55
  else c.toNat - 87

/-- Value of a big-endian string of decimal digits. -/
def octValD (ds : List Char) : Nat :=
  ds.foldl (fun a c => a * 10 + digitVal c) 0

/-- Value of a big-endian string of hexadecimal digits. -/
def hexValD (ds : List Char) : Nat :=
  ds.foldl (fun a c => a * 16 + hexDigitVal c) 0

/-- The value stored in the second field of Host: std::net::IpAddr.  A V6
address is kept as its eight 16-bit groups. -/
inductive IpAddr where
  | v4 (a b c d : Nat)
  | v6 (groups : List Nat)
deriving DecidableEq, Repr

/-! ### The std parsers called by hostmask.rs

Host::from calls str::parse::<IpAddr>() on the normalized IPv4 regex match
and str::parse::<Ipv6Addr>() (via the inferred IpAddr) on the IPv6 regex
match.  The following functions embed std's Parser for those types. -/

/-- std's read of one IPv4 octet: longest run of decimal digits, at most 3,
no zero prefix, value at most 255.  Returns the value and the rest. -/
def readOctet (cs : List Char) : Option (Nat × List Char) :=
  let ds := cs.takeWhile isDig
  if ds.isEmpty then none
  else if 3 < ds.length then none
  else if ds.head? = some '0' && 1 < ds.length then none
  else if 255 < octValD ds then none
  else some (octValD ds, cs.dropWhile isDig)

/-- Consume one dot. -/
def readDot : List Char → Option (List Char)
  | c :: r => if c = '.' then some r else none
  | [] => none

/-- std's read_ipv4_addr: four octets separated by single dots, read from the
front of the input; the rest of the input is returned. -/
def readIpv4Part (cs : List Char) : Option ((Nat × Nat × Nat × Nat) × List Char) :=
  (readOctet cs).bind fun p1 =>
  (readDot p1.2).bind fun r1 =>
  (readOctet r1).bind fun p2 =>
  (readDot p2.2).bind fun r2 =>
  (readOctet r2).bind fun p3 =>
  (readDot p3.2).bind fun r3 =>
  (readOctet r3).map fun p4 => ((p1.1, p2.1, p3.1, p4.1), p4.2)

/-- std's Ipv4Addr::from_str: read_ipv4_addr and then the end of the input. -/
def rustIpv4Parse (cs : List Char) : Option (Nat × Nat × Nat × Nat) :=
  match readIpv4Part cs with
  | some (q, []) => some q
  | _ => none

/-- std's read of one IPv6 group: 1 to 4 hex digits, zero prefix allowed. -/
def readHexGroup (cs : List Char) : Option (Nat × List Char) :=
  let ds := cs.takeWhile isHexDig
  if ds.isEmpty then none
  else if 4 < ds.length then none
  else some (hexValD ds, cs.dropWhile isHexDig)

/-- std's read_separator: at group index 0 read the item directly, otherwise
require a colon first.  Reading is atomic: on failure nothing is consumed. -/
def sepThen (i : Nat) (cs : List Char) (p : List Char → Option (α × List Char)) :
    Option (α × List Char) :=
  if i = 0 then p cs
  else match cs with
    | ':' :: t => p t
    | _ => none

/-- std's read_groups: fill up to the remaining number of slots; at each slot
with at least two slots left try an embedded IPv4 tail first, else a hex
group.  Returns the groups read, whether an IPv4 tail ended the run, and the
unconsumed input. -/
def readGroupsAux : Nat → Nat → List Char → (List Nat × Bool × List Char)
  | 0, _, cs => ([], false, cs)
  | r + 1, i, cs =>
    match (if 1 ≤ r then sepThen i cs readIpv4Part else none) with
    | some ((a, b, c, d), rest) => ([a * 256 + b, c * 256 + d], true, rest)
    | none =>
      match sepThen i cs readHexGroup with
      | some (g, rest) =>
        let out := readGroupsAux r (i + 1) rest
        (g :: out.1, out.2.1, out.2.2)
      | none => ([], false, cs)

/-- std's Ipv6Addr::from_str: head groups, an optional double colon with tail
groups, implied zero groups in between, and the end of the input. -/
def rustIpv6Parse (cs : List Char) : Option (List Nat) :=
  let h := readGroupsAux 8 0 cs
  let head := h.1
  let headV4 := h.2.1
  let rest := h.2.2
  if head.length = 8 then
    if rest = [] then some head else none
  else if headV4 then none
  else
    match rest with
    | ':' :: ':' :: rest2 =>
      let t := readGroupsAux (8 - (head.length + 1)) 0 rest2
      let tail := t.1
      let rest3 := t.2.2
      if rest3 = [] then
        some (head ++ List.replicate (8 - head.length - tail.length) 0 ++ tail)
      else none
    | _ => none

/-- std's IpAddr::from_str: try Ipv4Addr, then Ipv6Addr. -/
def rustIpAddrParse (cs : List Char) : Option IpAddr :=
  match rustIpv4Parse cs with
  | some (a, b, c, d) => some (.v4 a b c d)
  | none => (rustIpv6Parse cs).map .v6

/-! ### The IPv4 regular expression of hostmask.rs

Pattern from the source, line 144:
  four repetitions of ( octet, optional dot-or-dash, word boundary )
with octet = 25[0-5] or (2[0-4] or 1 digit or [1-9] or empty) digit. -/

/-- Word-boundary assertion between an optional previous and next character;
outside the input counts as a non-word character. -/
def bdry (prev next : Option Char) : Bool :=
  (match prev with | some c => isWordChar c | none => false) !=
  (match next with | some c => isWordChar c | none => false)

/-- The candidate octet matches at the front of the input, in the regex
alternation's preference order: 25[0-5], then 2[0-4] digit, then 1 digit
digit, then [1-9] digit, then a single digit. -/
def octetCands (cs : List Char) : List (List Char) :=
  (match cs with
   | c1 :: c2 :: c3 :: _ =>
     (if c1 = '2' && c2 = '5' && inRange c3 48 53 then [[c1, c2, c3]] else []) ++
     (if c1 = '2' && inRange c2 48 52 && isDig c3 then [[c1, c2, c3]] else []) ++
     (if c1 = '1' && isDig c2 && isDig c3 then [[c1, c2, c3]] else [])
   | _ => []) ++
  (match cs with
   | c1 :: c2 :: _ => if inRange c1 49 57 && isDig c2 then [[c1, c2]] else []
   | _ => []) ++
  (match cs with
   | c1 :: _ => if isDig c1 then [[c1]] else []
   | _ => [])

/-- Backtracking match of n repetitions of the group
( octet, optional separator, word boundary ) at the front of the input,
returning the matched characters.  The separator branch is preferred (the
quantifier is greedy); on its failure the group is retried without a
separator, and on total failure the next octet candidate is tried. -/
def matchGroupsAux : Nat → List Char → Option (List Char)
  | 0, _ => some []
  | n + 1, cs =>
    (octetCands cs).findSome? fun oct =>
      let rest := cs.drop oct.length
      (match rest with
       | s :: rest2 =>
         if (s = '.' || s = '-') && bdry (some s) rest2.head? then
           (matchGroupsAux n rest2).map fun m => oct ++ s :: m
         else none
       | [] => none)
      <|>
      (if bdry oct.getLast? rest.head? then
         (matchGroupsAux n rest).map fun m => oct ++ m
       else none)

/-- Leftmost-first find of the IPv4 pattern: try each starting position from
the left; at the first position where the pattern matches, return the match
chosen by the backtracking preference order. -/
def ipv4Find : List Char → Option (List Char)
  | [] => matchGroupsAux 4 []
  | c :: cs =>
    match matchGroupsAux 4 (c :: cs) with
    | some m => some m
    | none => ipv4Find cs

/-- A canonical octet string as produced by the octet alternation: decimal
digits, 1 to 3 of them, no zero prefix, value at most 255. -/
def CanonOct (o : List Char) : Prop :=
  (∀ c ∈ o, isDig c = true) ∧ o ≠ [] ∧ o.length ≤ 3 ∧
  (o.head? = some '0' → o.length = 1) ∧ octValD o ≤ 255

/-- The shape of a match of n repetition groups: canonical octets joined by
dot or dash separators, the last group's separator optional. -/
inductive GShape : Nat → List Char → Prop where
  | last_nosep (o : List Char) : CanonOct o → GShape 1 o
  | last_sep (o : List Char) (s : Char) :
      CanonOct o → s = '.' ∨ s = '-' → GShape 1 (o ++ [s])
  | cons (n : Nat) (o : List Char) (s : Char) (m : List Char) :
      CanonOct o → s = '.' ∨ s = '-' → GShape (n + 1) m →
      GShape (n + 2) (o ++ s :: m)

/-! ### The IPv6 regular expression of hostmask.rs

Pattern from the source, line 156: an alternation of twelve forms (full,
compressed, zone-id, embedded-IPv4), matched with leftmost-first semantics.
The matcher is a continuation-passing backtracker: a matcher consumes a
prefix of the input and calls the continuation on every admissible rest in
preference order. -/

/-- A backtracking matcher: input and continuation to the final rest. -/
def Matcher : Type :=
  List Char → (List Char → Option (List Char)) → Option (List Char)

/-- Sequencing of two matchers. -/
def mseq (p q : Matcher) : Matcher := fun cs k => p cs fun r => q r k

/-- Ordered alternation: the first matcher that lets the whole pattern
succeed wins. -/
def malt (ps : List Matcher) : Matcher := fun cs k => ps.findSome? fun p => p cs k

/-- Match one given character. -/
def mchar (c : Char) : Matcher := fun cs k =>
  match cs with
  | x :: r => if x = c then k r else none
  | [] => none

/-- Match one character satisfying a class test. -/
def mpred (f : Char → Bool) : Matcher := fun cs k =>
  match cs with
  | x :: r => if f x then k r else none
  | [] => none

/-- Greedy option: prefer taking the inner matcher. -/
def mopt (p : Matcher) : Matcher := fun cs k => (p cs k).orElse fun _ => k cs

/-- Greedy bounded repetition between lo and hi copies: prefer more copies. -/
def mrepRange : Nat → Nat → Matcher → Matcher
  | 0, 0, _ => fun cs k => k cs
  | 0, h + 1, p => fun cs k => (p cs fun r => mrepRange 0 h p r k).orElse fun _ => k cs
  | _ + 1, 0, _ => fun _ _ => none
  | l + 1, h + 1, p => fun cs k => p cs fun r => mrepRange l h p r k

/-- Exactly n copies. -/
def mreps (n : Nat) (p : Matcher) : Matcher := mrepRange n n p

/-- Greedy unbounded repetition, driven by a fuel that the caller sets to the
input length; every use repeats a one-character matcher, so the fuel never
runs out before the input does. -/
def mstarFuel : Nat → Matcher → Matcher
  | 0, _ => fun cs k => k cs
  | n + 1, p => fun cs k => (p cs fun r => mstarFuel n p r k).orElse fun _ => k cs

/-- Greedy one-or-more repetition. -/
def mplus (p : Matcher) : Matcher := fun cs k =>
  p cs fun r => mstarFuel r.length p r k

/-- Match a literal character string. -/
def mlit : List Char → Matcher
  | [] => fun cs k => k cs
  | c :: t => mseq (mchar c) (mlit t)

/-- One to four hex digits, greedy. -/
def mhex14 : Matcher := mrepRange 1 4 (mpred isHexDig)

/-- A hex group followed by a colon. -/
def mgroupColon : Matcher := mseq mhex14 (mchar ':')

/-- A colon followed by a hex group. -/
def mcolonGroup : Matcher := mseq (mchar ':') mhex14

/-- The octet class used inside the embedded-IPv4 alternatives of the IPv6
pattern: 25[0-5], or an optional (2[0-4] or optional 1 then digit) and a
digit, in that preference order. -/
def mv6Octet : Matcher :=
  malt
    [ mseq (mchar '2') (mseq (mchar '5') (mpred fun c => inRange c 48 53)),
      mseq (mchar '2') (mseq (mpred fun c => inRange c 48 52) (mpred isDig)),
      mseq (mchar '1') (mseq (mpred isDig) (mpred isDig)),
      mseq (mpred isDig) (mpred isDig),
      mpred isDig ]

/-- A dotted quad of mv6Octet groups. -/
def mv6DottedQuad : Matcher :=
  mseq (mreps 3 (mseq mv6Octet (mchar '.'))) mv6Octet

/-- The twelve alternatives of the IPv6 pattern, in source order. -/
def ipv6Alts : Matcher :=
  malt
    [ mseq (mreps 7 mgroupColon) mhex14,
      mseq (mrepRange 1 7 mgroupColon) (mchar ':'),
      mseq (mrepRange 1 6 mgroupColon) (mseq (mchar ':') mhex14),
      mseq (mrepRange 1 5 mgroupColon) (mrepRange 1 2 mcolonGroup),
      mseq (mrepRange 1 4 mgroupColon) (mrepRange 1 3 mcolonGroup),
      mseq (mrepRange 1 3 mgroupColon) (mrepRange 1 4 mcolonGroup),
      mseq (mrepRange 1 2 mgroupColon) (mrepRange 1 5 mcolonGroup),
      mseq mgroupColon (mrepRange 1 6 mcolonGroup),
      mseq (mchar ':') (malt [mrepRange 1 7 mcolonGroup, mchar ':']),
      mseq (mlit "fe80:".data)
        (mseq (mrepRange 0 4 (mseq (mchar ':') (mrepRange 0 4 (mpred isHexDig))))
          (mseq (mchar '%') (mplus (mpred fun c => isDig c || inRange c 65 90 || inRange c 97 122)))),
      mseq (mlit "::".data)
        (mseq (mopt (mseq (mlit "ffff".data)
            (mseq (mopt (mseq (mchar ':') (mrepRange 1 4 (mchar '0')))) (mchar ':'))))
          mv6DottedQuad),
      mseq (mrepRange 1 4 mgroupColon) (mseq (mchar ':') mv6DottedQuad) ]

/-- Match the IPv6 pattern at the front of the input, returning the matched
characters. -/
def ipv6MatchAt (cs : List Char) : Option (List Char) :=
  (ipv6Alts cs some).map fun rest => cs.take (cs.length - rest.length)

/-- Leftmost-first find of the IPv6 pattern. -/
def ipv6Find : List Char → Option (List Char)
  | [] => ipv6MatchAt []
  | c :: cs =>
    match ipv6MatchAt (c :: cs) with
    | some m => some m
    | none => ipv6Find cs

/-! ### Host (hostmask.rs lines 116-168) -/

/-- The Host tuple struct: raw text, optional parsed address, subnet flag. -/
structure Host where
  raw : String
  addr : Option IpAddr
  subnetF : Bool
deriving DecidableEq, Repr

/-- Host's hand-written PartialEq (lines 136-140): raw text only. -/
def Host.beqRust (h1 h2 : Host) : Bool := h1.raw == h2.raw

/-- The field tuple fed to the hasher by Host's derived Hash: every field, in
order.  Two values feed equal streams to the hasher exactly when these
tuples are equal. -/
def Host.hashInput (h : Host) : String × Option IpAddr × Bool :=
  (h.raw, h.addr, h.subnetF)

/-- Dash-to-dot normalization, str::replace with a one-character pattern. -/
def normChars (cs : List Char) : List Char :=
  cs.map fun c => if c = '-' then '.' else c

/-- Host::from (lines 142-162): find the first IPv4 pattern match, strip one
trailing dot, normalize dashes to dots and parse (a failed parse degenerates
to no address); otherwise find the first IPv6 pattern match and unwrap its
parse (the unwrap panics when std rejects the matched text, modelled as
none); otherwise a text-only host. -/
def hostFromStr (s : String) : Option Host :=
  match ipv4Find s.data with
  | some m =>
    let m1 := if m.getLast? = some '.' then m.dropLast else m
    some ⟨s, rustIpAddrParse (normChars m1), false⟩
  | none =>
    match ipv6Find s.data with
    | some m => (rustIpv6Parse m).map fun g => ⟨s, some (.v6 g), false⟩
    | none => some ⟨s, none, false⟩

/-- Join a list of strings with a separator, itertools join. -/
def strJoin (sep : String) : List String → String
  | [] => ""
  | [x] => x
  | x :: y :: t => x ++ sep ++ strJoin sep (y :: t)

/-- Query for Host (lines 119-134): with a parsed V4 address, the first 3
octets when the Host's own subnet field is set, else all 4, underscore
joined and wrapped in percent signs; any other case is a percent prefix on
the raw text. -/
def Host.query (h : Host) : String :=
  match h.addr with
  | some (.v4 a b c d) =>
    let octs := ([a, b, c, d].take (if h.subnetF then 3 else 4)).map toString
    "%" ++ strJoin "_" octs ++ "%"
  | _ => "%" ++ h.raw

/-- Query for Nick (lines 79-83): prefix pattern. -/
def nickQuery (n : String) : String := n ++ "%"

/-- Query for Ident (lines 99-103): substring pattern. -/
def identQuery (i : String) : String := "%" ++ i ++ "%"

/-! ### HostMask (hostmask.rs lines 6-70)

HostMask::from_str finds the character positions of the first exclamation
mark and of the first at sign after it, but slices the string at those
numbers as byte indices; on a byte index that is not a character boundary
Rust panics.  The byte-level slicing is modelled on the UTF-8 encoding. -/

/-- UTF-8 encoded size of one character. -/
def utf8Size (c : Char) : Nat :=
  if c.toNat < 128 then 1
  else if c.toNat < 2048 then 2
  else if c.toNat < 65536 then 3
  else 4

/-- Drop n bytes from the front; none when n is not a character boundary. -/
def dropBytes : List Char → Nat → Option (List Char)
  | cs, 0 => some cs
  | [], _ + 1 => none
  | c :: cs, n + 1 =>
    if utf8Size c ≤ n + 1 then dropBytes cs (n + 1 - utf8Size c) else none

/-- Take n bytes from the front; none when n is not a character boundary. -/
def takeBytes : List Char → Nat → Option (List Char)
  | _, 0 => some []
  | [], _ + 1 => none
  | c :: cs, n + 1 =>
    if utf8Size c ≤ n + 1 then
      (takeBytes cs (n + 1 - utf8Size c)).map fun t => c :: t
    else none

/-- Rust byte slice s[a..b] for a ≤ b. -/
def byteSlice (cs : List Char) (a b : Nat) : Option (List Char) :=
  (dropBytes cs a).bind fun t => takeBytes t (b - a)

/-- Index of the first occurrence of a character. -/
def findPos : List Char → Char → Option Nat
  | [], _ => none
  | c :: cs, x => if c = x then some 0 else (findPos cs x).map (· + 1)

/-- The error type of HostMask::from_str (lines 64-70). -/
inductive HostMaskError where
  | MissingIdent
  | MissingHost
deriving DecidableEq, Repr

/-- The HostMask struct (lines 6-12). -/
structure HostMask where
  nick : String
  ident : String
  host : Host
  subnet : Bool
deriving DecidableEq, Repr

/-- HostMask::from_str (lines 17-35): the character position of the first
exclamation mark (else MissingIdent), the count of characters between it and
the first at sign after it (else MissingHost), then three byte slices taken
at those character counts, and the host built by Host::from.  The outer none
models a panic: a slice off a character boundary, or a Host::from panic. -/
def hostMaskFromStr (s : String) : Option (Except HostMaskError HostMask) :=
  let cs := s.data
  match findPos cs '!' with
  | none => some (.error .MissingIdent)
  | some i =>
    match findPos (cs.drop (i + 1)) '@' with
    | none => some (.error .MissingHost)
    | some k =>
      let j := i + 1 + k
      match byteSlice cs 0 i, byteSlice cs (i + 1) j, dropBytes cs (j + 1) with
      | some nickCs, some identCs, some hostCs =>
        (hostFromStr (String.mk hostCs)).map fun h =>
          .ok ⟨String.mk nickCs, String.mk identCs, h, false⟩
      | _, _, _ => none

/-- HostMask::nick_query, via Query for Nick. -/
def HostMask.nickQuery (m : HostMask) : String := m.nick ++ "%"

/-- HostMask::ident_query, via Query for Ident. -/
def HostMask.identQuery (m : HostMask) : String := "%" ++ m.ident ++ "%"

/-- HostMask::host_query (lines 47-49): delegates to the Host's own query,
reading the Host's internal flag, not the mask's subnet field. -/
def HostMask.hostQuery (m : HostMask) : String := m.host.query

/-- HostMask's derived PartialEq combined with Host's hand-written one:
nick, ident, subnet by value, host by raw text. -/
def HostMask.beqRust (m1 m2 : HostMask) : Bool :=
  m1.nick == m2.nick && m1.ident == m2.ident &&
  Host.beqRust m1.host m2.host && m1.subnet == m2.subnet

/-! ### The correlation engine (main.rs run_worker, lines 159-297)

The store collaborator is a function from a pattern to an optional list of
rows: none models a failed query, which the source swallows with ok().
Frontier sets and the visited set are modelled as duplicate-free lists with
membership taken by the Rust equality of the element type; list order stands
in for the unspecified HashSet iteration order and none of the proved
properties depend on it. -/

/-- One row answered by the store: sender id and raw mask text.  The realname
column is never decoded by Sender::try_from. -/
structure StoreRow where
  id : Int
  text : String
deriving DecidableEq, Repr

/-- The Sender record (main.rs lines 312-317). -/
structure Sender where
  id : Int
  sender : HostMask
  realname : Option String
deriving DecidableEq, Repr

/-- Sender's derived PartialEq, with Host compared by raw text through
HostMask. -/
def Sender.beqRust (s1 s2 : Sender) : Bool :=
  s1.id == s2.id && HostMask.beqRust s1.sender s2.sender && s1.realname == s2.realname

/-- Sender::try_from (lines 319-329): decode id and parse the mask text.  The
outer none models a panic inside parsing; the inner error is the try_from
error that the caller drops. -/
def senderTryFrom (row : StoreRow) : Option (Except Unit Sender) :=
  match hostMaskFromStr row.text with
  | none => none
  | some (.error _) => some (.error ())
  | some (.ok m) => some (.ok ⟨row.id, m, none⟩)

/-- HashSet::insert keyed by a Rust equality: the set unchanged and false on
a duplicate, the element appended and true otherwise. -/
def insertBy (eq : α → α → Bool) (x : α) (l : List α) : List α × Bool :=
  if l.any (eq x) then (l, false) else (l ++ [x], true)

/-- The CLI arguments (main.rs lines 127-141): mask, subnet flag, depth
(default 3) and ident-following flag. -/
structure Args where
  mask : String
  subnet : Bool
  depth : Nat
  ident : Bool

/-- The three frontier sets and the visited set of one run. -/
structure EngineState where
  nicks : List String
  idents : List String
  hosts : List Host
  senders : List Sender
deriving Repr

/-- The kind of a query issued to the store. -/
inductive QueryKind where
  | nickQ
  | identQ
  | hostQ
deriving DecidableEq, Repr

/-- Observables of one loop iteration: the frontiers at its start and the
queries it issued, in order. -/
structure IterLog where
  nicksStart : List String
  identsStart : List String
  hostsStart : List Host
  queries : List (QueryKind × String)
deriving Repr

/-- Decode and insert the rows of one query (the filter_map body of each
category, e.g. lines 207-218): a row whose mask text panics during parsing
kills the task (none); a row whose try_from errs is dropped; otherwise the
mask's subnet field is set from the arguments and the record inserted into
the visited set, collecting it when the insert reports it new. -/
def insertRows (subnet : Bool) :
    List StoreRow → List Sender → List Sender → Option (List Sender × List Sender)
  | [], senders, newly => some (senders, newly)
  | row :: rows, senders, newly =>
    match senderTryFrom row with
    | none => none
    | some (.error _) => insertRows subnet rows senders newly
    | some (.ok sd0) =>
      let sd : Sender := ⟨sd0.id, { sd0.sender with subnet := subnet }, sd0.realname⟩
      match insertBy Sender.beqRust sd senders with
      | (senders1, true) => insertRows subnet rows senders1 (newly ++ [sd])
      | (senders1, false) => insertRows subnet rows senders1 newly

/-- Run the queries of one frontier category in order: a failed query
contributes no rows, the rows of a successful one are decoded and inserted. -/
def runCategory (store : String → Option (List StoreRow)) (subnet : Bool) :
    List String → List Sender → List Sender → Option (List Sender × List Sender)
  | [], senders, newly => some (senders, newly)
  | q :: qs, senders, newly =>
    match insertRows subnet ((store q).getD []) senders newly with
    | none => none
    | some (senders1, newly1) => runCategory store subnet qs senders1 newly1

/-- One iteration of the loop body (lines 199-291): query the nick frontier,
then the ident frontier only when ident-following is on, then the host
frontier; the newly inserted records of all categories rebuild the three
frontiers for the next iteration.  The ident components of discovered
records are inserted into the ident frontier unconditionally (lines
283-290). -/
def engineIterate (store : String → Option (List StoreRow)) (args : Args)
    (st : EngineState) : Option (EngineState × IterLog) :=
  let nickQs := st.nicks.map nickQuery
  let identQs := st.idents.map identQuery
  let hostQs := st.hosts.map Host.query
  let issued :=
    nickQs.map (Prod.mk .nickQ) ++
    (if args.ident then identQs.map (Prod.mk .identQ) else []) ++
    hostQs.map (Prod.mk .hostQ)
  (runCategory store args.subnet nickQs st.senders []).bind fun p1 =>
  (if args.ident then runCategory store args.subnet identQs p1.1 []
   else some (p1.1, [])).bind fun p2 =>
  (runCategory store args.subnet hostQs p2.1 []).bind fun p3 =>
  let res := p1.2 ++ p2.2 ++ p3.2
  let nicks1 := res.foldl (fun acc sd => (insertBy BEq.beq sd.sender.nick acc).1) []
  let idents1 := res.foldl (fun acc sd => (insertBy BEq.beq sd.sender.ident acc).1) []
  let hosts1 := res.foldl (fun acc sd => (insertBy Host.beqRust sd.sender.host acc).1) []
  some (⟨nicks1, idents1, hosts1, p3.1⟩,
        ⟨st.nicks, st.idents, st.hosts, issued⟩)

/-- The loop (lines 191-292): up to the given number of iterations, breaking
first when all three frontiers are empty.  Returns the iteration logs and
the final visited set, none for a run killed by a panic. -/
def runWorkerLoop (store : String → Option (List StoreRow)) (args : Args) :
    Nat → EngineState → List IterLog → List IterLog × Option (List Sender)
  | 0, st, logs => (logs, some st.senders)
  | n + 1, st, logs =>
    if st.nicks.isEmpty && st.idents.isEmpty && st.hosts.isEmpty then
      (logs, some st.senders)
    else
      match engineIterate store args st with
      | none => (logs, none)
      | some (st1, lg) => runWorkerLoop store args n st1 (logs ++ [lg])

/-- run_worker (lines 159-297): unwrap the parsed mask (a parse error or
panic kills the task), set its subnet field from the arguments, seed the
nick and host frontiers from the mask and the ident frontier only when
ident-following is on (seed then clear, lines 185-188), and loop.  The
iteration bound is the hardcoded local depth of 2 (line 183); args.depth is
never read by the loop, exactly as in the source. -/
def runWorker (store : String → Option (List StoreRow)) (args : Args) :
    Option (List IterLog × Option (List Sender)) :=
  match hostMaskFromStr args.mask with
  | some (.ok m0) =>
    let m : HostMask := { m0 with subnet := args.subnet }
    let depth := 2
    let idents0 := if args.ident then [m.ident] else []
    some (runWorkerLoop store args depth ⟨[m.nick], idents0, [m.host], []⟩ [])
  | _ => none

/-! ### Concrete stores for the engine theorems -/

/-- A store whose records chain for more iterations than any small depth:
the seed nick finds a second identity, whose nick finds a third. -/
def c2Store : String → Option (List StoreRow) := fun q =>
  if q = "a%" then some [⟨1, "c!d@h1"⟩]
  else if q = "c%" then some [⟨2, "e!f@h2"⟩]
  else some []

/-- CLI arguments with a depth bound of 1 and ident-following off. -/
def c2Args : Args := ⟨"a!b@h0", false, 1, false⟩

/-- A store where the seed nick finds one record carrying the ident d. -/
def c3Store : String → Option (List StoreRow) := fun q =>
  if q = "a%" then some [⟨1, "c!d@h1"⟩] else some []

/-- CLI arguments with ident-following off. -/
def c3Args : Args := ⟨"a!b@h0", false, 3, false⟩

/-! ### Theorems for the claims -/

/-- C1: the claim says that after the caller sets the mask's subnet flag the
host query returns the 3-octet subnet-generalized fingerprint.  The code
never propagates HostMask.subnet to the Host's own flag, which Host::from
fixes to false, so host_query still returns all 4 octets: parsing
n!i@66.205.192.51 and setting subnet to true yields %66_205_192_51%, not the
%66_205_192% that the claim (and the repository's own test_parse_host)
expects. -/
theorem c1_subnet_flag_dead :
    hostMaskFromStr "n!i@66.205.192.51" =
      some (.ok ⟨"n", "i", ⟨"66.205.192.51", some (.v4 66 205 192 51), false⟩, false⟩) ∧
    HostMask.hostQuery ⟨"n", "i", ⟨"66.205.192.51", some (.v4 66 205 192 51), false⟩, true⟩ =
      "%66_205_192_51%" ∧
    HostMask.hostQuery ⟨"n", "i", ⟨"66.205.192.51", some (.v4 66 205 192 51), false⟩, true⟩ ≠
      "%66_205_192%" := by
  refine ⟨rfl, rfl, ?_⟩
  decide

/-- C2: the claim says the engine performs at most depth iterations and with
depth 1 stops after iteration 1.  The loop iterates over the hardcoded local
depth of 2 and never reads args.depth: with the chaining store and a
configured depth of 1, two iterations run. -/
theorem c2_depth_arg_ignored :
    c2Args.depth = 1 ∧
    (runWorker c2Store c2Args).map (fun p => p.1.length) = some 2 := ⟨rfl, rfl⟩

/-- C3 counterexample: with ident-following off the Ident frontier is
rebuilt from discovered records, so it is not empty at the start of every
iteration: the record c!d@h1 discovered in iteration 1 puts d into the Ident
frontier seen at the start of iteration 2. -/
theorem c3_ident_frontier_repopulated :
    c3Args.ident = false ∧
    (runWorker c3Store c3Args).map (fun p => p.1.map IterLog.identsStart) =
      some [[], ["d"]] := ⟨rfl, rfl⟩

/-- C4: the claim says building a Host never fails or panics.  On the input
fe80:%0 no IPv4 pattern matches, the zone-id alternative of the IPv6 pattern
matches the whole string, and std's IPv6 parser rejects zone ids, so the
unwrap in Host::from panics (modelled as none). -/
theorem c4_host_from_panics :
    hostFromStr "fe80:%0" = none ∧ ipv6Find "fe80:%0".data = some "fe80:%0".data :=
  ⟨rfl, rfl⟩

/-- C5 counterexample: the claim quantifies over all strings N!I@H, but
from_str slices the string at character positions used as byte indices, so a
multibyte nick panics: for é!a@b the nick slice s[0..1] falls inside the
two-byte character é. -/
theorem c5_multibyte_nick_panics : hostMaskFromStr "é!a@b" = none := rfl

/-- C6 counterexample: the claim says a trailing dot or dash is stripped so
the embedded address is still recorded.  Only a trailing dot is stripped: on
1-2-3-4-a the leftmost match is 1-2-3-4- with a trailing dash, dash
normalization turns it into 1.2.3.4. which fails numeric parsing, and no
address is recorded. -/
theorem c6_trailing_dash_drops_address :
    ipv4Find "1-2-3-4-a".data = some "1-2-3-4-".data ∧
    hostFromStr "1-2-3-4-a" = some ⟨"1-2-3-4-a", none, false⟩ := ⟨rfl, rfl⟩

/-- C10 counterexample: Host equality is raw text only while the derived
hash feeds every field to the hasher, so two Host values that compare equal
can feed different data to the hasher: equal raw text a, one with a parsed
address and one without. -/
theorem c10_equal_hosts_hash_apart :
    Host.beqRust ⟨"a", none, false⟩ ⟨"a", some (.v4 1 2 3 4), false⟩ = true ∧
    Host.hashInput ⟨"a", none, false⟩ ≠ Host.hashInput ⟨"a", some (.v4 1 2 3 4), false⟩ := by
  refine ⟨rfl, ?_⟩
  intro h
  simp [Host.hashInput] at h

/-! ### Helper lemmas -/

lemma strJoin_four (x y z w : String) :
    strJoin "_" [x, y, z, w] = x ++ "_" ++ y ++ "_" ++ z ++ "_" ++ w := by
  apply String.ext
  simp [strJoin, String.data_append, List.append_assoc]

lemma findPos_of_not_mem {cs : List Char} {x : Char} (h : x ∉ cs) :
    findPos cs x = none := by
  induction cs with
  | nil => rfl
  | cons c t ih =>
    simp only [List.mem_cons, not_or] at h
    have hne : ¬c = x := fun hc => h.1 hc.symm
    simp [findPos, hne, ih h.2]

lemma findPos_append {l t : List Char} {x : Char} (h : x ∉ l) :
    findPos (l ++ x :: t) x = some l.length := by
  induction l with
  | nil => simp [findPos]
  | cons c cs ih =>
    simp only [List.mem_cons, not_or] at h
    have hne : ¬c = x := fun hc => h.1 hc.symm
    simp [findPos, hne, ih h.2]

/-- C7: for every Host with a parsed IPv4 address and the subnet flag off,
the fingerprint is all four octets underscore-joined and wrapped in percent
signs. -/
theorem c7_subnet_off_four_octets (h : Host) (a b c d : Nat)
    (h1 : h.addr = some (.v4 a b c d)) (h2 : h.subnetF = false) :
    h.query = "%" ++ toString a ++ "_" ++ toString b ++ "_" ++ toString c ++
      "_" ++ toString d ++ "%" := by
  apply String.ext
  simp [Host.query, h1, h2, strJoin_four, String.data_append, List.append_assoc]

/-- C7 witness: the classifier on 66.205.192.51 yields the parsed address,
and the four-octet fingerprint of that host is %66_205_192_51%. -/
theorem c7_subnet_off_four_octets_witness :
    hostFromStr "66.205.192.51" =
      some ⟨"66.205.192.51", some (.v4 66 205 192 51), false⟩ ∧
    Host.query ⟨"66.205.192.51", some (.v4 66 205 192 51), false⟩ =
      "%66_205_192_51%" :=
  ⟨rfl, c7_subnet_off_four_octets ⟨"66.205.192.51", some (.v4 66 205 192 51), false⟩
    66 205 192 51 rfl rfl⟩

/-- C8: a string with no exclamation mark parses to MissingIdent whether or
not it has an at sign, and a string with an exclamation mark but no at sign
after the first one parses to MissingHost; the exclamation check runs
first. -/
theorem c8_missing_delimiters (s : String) :
    ('!' ∉ s.data → hostMaskFromStr s = some (.error .MissingIdent)) ∧
    (∀ i, findPos s.data '!' = some i → '@' ∉ s.data.drop (i + 1) →
      hostMaskFromStr s = some (.error .MissingHost)) := by
  constructor
  · intro h
    simp [hostMaskFromStr, findPos_of_not_mem h]
  · intro i hi h
    simp [hostMaskFromStr, hi, findPos_of_not_mem h]

/-- C8 witness: a string with neither delimiter reports MissingIdent first,
and a!b with an exclamation mark but no at sign reports MissingHost. -/
theorem c8_missing_delimiters_witness :
    hostMaskFromStr "a@bc" = some (.error .MissingIdent) ∧
    hostMaskFromStr "a!b" = some (.error .MissingHost) :=
  ⟨(c8_missing_delimiters "a@bc").1 (by decide),
   (c8_missing_delimiters "a!b").2 1 rfl (by decide)⟩

/-- The classifier keeps the input as the raw text of the built Host. -/
lemma hostFromStr_raw {s : String} {h : Host} (e : hostFromStr s = some h) :
    h.raw = s := by
  unfold hostFromStr at e
  split at e
  · exact (Option.some.inj e) ▸ rfl
  · split at e
    · rcases Option.map_eq_some'.mp e with ⟨g, _, rfl⟩
      rfl
    · exact (Option.some.inj e) ▸ rfl

/-- C10 amended: for Host values built by the classifier, equality on the
raw text does imply equal hash input, because the classifier is a function
of the raw text and the raw text is the input itself. -/
theorem c10_classifier_hosts_hash_alike (s1 s2 : String) (h1 h2 : Host)
    (e1 : hostFromStr s1 = some h1) (e2 : hostFromStr s2 = some h2)
    (heq : Host.beqRust h1 h2 = true) :
    Host.hashInput h1 = Host.hashInput h2 := by
  have hr1 : h1.raw = s1 := hostFromStr_raw e1
  have hr2 : h2.raw = s2 := hostFromStr_raw e2
  have hraw : h1.raw == h2.raw := heq
  have hs : s1 = s2 := hr1 ▸ hr2 ▸ eq_of_beq hraw
  subst hs
  rw [e1] at e2
  exact Option.some.inj e2 ▸ rfl

/-- C10 amended witness: two classifier-built hosts from the raw text x
compare equal and hash alike. -/
theorem c10_classifier_hosts_hash_alike_witness :
    Host.hashInput ⟨"x", none, false⟩ = Host.hashInput ⟨"x", none, false⟩ :=
  c10_classifier_hosts_hash_alike "x" "x" _ _ rfl rfl rfl

/-! ### Engine lemmas -/

lemma engineIterate_log {store : String → Option (List StoreRow)} {args : Args}
    {st st1 : EngineState} {lg : IterLog}
    (he : engineIterate store args st = some (st1, lg)) :
    lg.nicksStart = st.nicks ∧ lg.identsStart = st.idents ∧
    lg.hostsStart = st.hosts ∧
    lg.queries = (st.nicks.map nickQuery).map (Prod.mk QueryKind.nickQ) ++
      (if args.ident then (st.idents.map identQuery).map (Prod.mk QueryKind.identQ)
       else []) ++
      (st.hosts.map Host.query).map (Prod.mk QueryKind.hostQ) := by
  simp only [engineIterate, Option.bind_eq_some] at he
  obtain ⟨p1, -, p2, -, p3, -, he⟩ := he
  simp only [Option.some.injEq, Prod.mk.injEq] at he
  obtain ⟨-, h2⟩ := he
  subst h2
  exact ⟨rfl, rfl, rfl, rfl⟩

lemma runWorkerLoop_prefix (store : String → Option (List StoreRow)) (args : Args) :
    ∀ (n : Nat) (st : EngineState) (logs0 : List IterLog),
      ∃ L', (runWorkerLoop store args n st logs0).1 = logs0 ++ L' := by
  intro n
  induction n with
  | zero => intro st logs0; exact ⟨[], by simp [runWorkerLoop]⟩
  | succ k ih =>
    intro st logs0
    unfold runWorkerLoop
    split
    · exact ⟨[], by simp⟩
    · split
      · exact ⟨[], by simp⟩
      · rename_i st1 lg1 heq
        obtain ⟨L', hL'⟩ := ih st1 (logs0 ++ [lg1])
        exact ⟨lg1 :: L', by simpa using hL'⟩

lemma runWorkerLoop_all {store : String → Option (List StoreRow)} {args : Args}
    (P : IterLog → Prop)
    (hP : ∀ st st1 lg, engineIterate store args st = some (st1, lg) → P lg) :
    ∀ (n : Nat) (st : EngineState) (logs0 L : List IterLog)
      (R : Option (List Sender)),
      (∀ lg ∈ logs0, P lg) → runWorkerLoop store args n st logs0 = (L, R) →
      ∀ lg ∈ L, P lg := by
  intro n
  induction n with
  | zero =>
    intro st logs0 L R h0 hrun
    simp only [runWorkerLoop] at hrun
    obtain ⟨rfl, -⟩ := Prod.mk.injEq .. ▸ hrun
    exact h0
  | succ k ih =>
    intro st logs0 L R h0 hrun
    unfold runWorkerLoop at hrun
    split at hrun
    · obtain ⟨rfl, -⟩ := Prod.mk.injEq .. ▸ hrun
      exact h0
    · split at hrun
      · obtain ⟨rfl, -⟩ := Prod.mk.injEq .. ▸ hrun
        exact h0
      · rename_i st1 lg1 heq
        refine ih st1 (logs0 ++ [lg1]) L R ?_ hrun
        intro lg hlg
        rcases List.mem_append.mp hlg with h | h
        · exact h0 lg h
        · rw [List.mem_singleton.mp h]
          exact hP st st1 lg1 heq

lemma runWorkerLoop_head {store : String → Option (List StoreRow)} {args : Args}
    {n : Nat} {st : EngineState} {L : List IterLog} {R : Option (List Sender)}
    (h : runWorkerLoop store args n st [] = (L, R)) :
    ∀ lg, L.head? = some lg → lg.identsStart = st.idents := by
  intro lg hlg
  cases n with
  | zero =>
    simp only [runWorkerLoop] at h
    obtain ⟨rfl, -⟩ := Prod.mk.injEq .. ▸ h
    simp at hlg
  | succ k =>
    unfold runWorkerLoop at h
    split at h
    · obtain ⟨rfl, -⟩ := Prod.mk.injEq .. ▸ h
      simp at hlg
    · split at h
      · obtain ⟨rfl, -⟩ := Prod.mk.injEq .. ▸ h
        simp at hlg
      · rename_i st1 lg1 heq
        obtain ⟨L', hL'⟩ := runWorkerLoop_prefix store args k st1 ([] ++ [lg1])
        rw [h] at hL'
        have hL : L = lg1 :: L' := by simpa using hL'
        have hhd : lg = lg1 := by
          rw [hL] at hlg
          exact (Option.some.inj hlg).symm
        rw [hhd]
        exact (engineIterate_log heq).2.1

/-- C3 amended: when ident-following is disabled the Ident frontier starts
empty and no ident query is ever issued in any iteration; the frontier is
however rebuilt from discovered records (see the counterexample), it is just
never queried. -/
theorem c3_ident_off_never_queried (store : String → Option (List StoreRow))
    (args : Args) (L : List IterLog) (R : Option (List Sender))
    (hoff : args.ident = false) (hrun : runWorker store args = some (L, R)) :
    (∀ lg, L.head? = some lg → lg.identsStart = []) ∧
    (∀ lg ∈ L, ∀ q ∈ lg.queries, q.1 ≠ QueryKind.identQ) := by
  unfold runWorker at hrun
  split at hrun
  case h_2 => exact absurd hrun (by simp)
  rename_i m0 hm
  have heq0 := Option.some.inj hrun
  rw [hoff] at heq0
  simp only [Bool.false_eq_true, if_false] at heq0
  constructor
  · intro lg hlg
    exact runWorkerLoop_head heq0 lg hlg
  · refine runWorkerLoop_all (fun lg => ∀ q ∈ lg.queries, q.1 ≠ QueryKind.identQ)
      ?_ 2 _ [] L R (by simp) heq0
    intro st st1 lg he q hq
    have hqs := (engineIterate_log he).2.2.2
    rw [hqs, hoff] at hq
    simp only [Bool.false_eq_true, if_false, List.append_nil, List.mem_append] at hq
    rcases hq with h | h <;>
      · obtain ⟨x, -, rfl⟩ := List.mem_map.mp h
        simp

/-- C3 amended witness: on a run with ident-following off against an empty
store, the single iteration started with an empty Ident frontier and issued
only nick and host queries. -/
theorem c3_ident_off_never_queried_witness :
    (∀ lg, ([(⟨["a"], [], [⟨"c", none, false⟩],
        [(QueryKind.nickQ, "a%"), (QueryKind.hostQ, "%c")]⟩ : IterLog)] : List IterLog).head? =
          some lg → lg.identsStart = []) ∧
    (∀ lg ∈ ([(⟨["a"], [], [⟨"c", none, false⟩],
        [(QueryKind.nickQ, "a%"), (QueryKind.hostQ, "%c")]⟩ : IterLog)] : List IterLog),
      ∀ q ∈ lg.queries, q.1 ≠ QueryKind.identQ) :=
  c3_ident_off_never_queried (fun _ => some []) ⟨"a!b@c", false, 3, false⟩ _ _ rfl rfl

/-- C9: when every store query answers zero records, the run performs
exactly one iteration and ends with an empty visited set: the seed identity
is never auto-inserted. -/
theorem c9_empty_store_one_iteration (store : String → Option (List StoreRow))
    (args : Args) (m : HostMask)
    (hm : hostMaskFromStr args.mask = some (.ok m))
    (hstore : ∀ q, store q = some []) :
    (runWorker store args).map (fun p => (p.1.length, p.2)) = some (1, some []) := by
  cases hai : args.ident <;>
    simp [runWorker, hm, hai, runWorkerLoop, engineIterate, runCategory, insertRows,
      hstore]

/-- C9 witness: a concrete run against the store that always answers zero
records performs one iteration and yields the empty visited set. -/
theorem c9_empty_store_one_iteration_witness :
    (runWorker (fun _ => some []) ⟨"a!b@c", false, 3, true⟩).map
      (fun p => (p.1.length, p.2)) = some (1, some []) :=
  c9_empty_store_one_iteration (fun _ => some []) ⟨"a!b@c", false, 3, true⟩
    ⟨"a", "b", ⟨"c", none, false⟩, false⟩ rfl (fun _ => rfl)

/-! ### ASCII byte-slicing lemmas -/

lemma utf8Size_ascii {c : Char} (h : c.toNat < 128) : utf8Size c = 1 := by
  simp [utf8Size, h]

lemma dropBytes_ascii :
    ∀ (cs : List Char) (n : Nat), (∀ c ∈ cs, c.toNat < 128) → n ≤ cs.length →
      dropBytes cs n = some (cs.drop n) := by
  intro cs
  induction cs with
  | nil =>
    intro n _ hn
    have hn0 : n = 0 := by simpa using hn
    subst hn0
    rfl
  | cons c t ih =>
    intro n ha hn
    cases n with
    | zero => rfl
    | succ k =>
      have hc : utf8Size c = 1 := utf8Size_ascii (ha c (by simp))
      simp only [dropBytes, hc, Nat.le_add_left, if_pos, Nat.add_sub_cancel,
        List.drop_succ_cons]
      exact ih k (fun x hx => ha x (by simp [hx])) (by simpa using hn)

lemma takeBytes_ascii :
    ∀ (cs : List Char) (n : Nat), (∀ c ∈ cs, c.toNat < 128) → n ≤ cs.length →
      takeBytes cs n = some (cs.take n) := by
  intro cs
  induction cs with
  | nil =>
    intro n _ hn
    have hn0 : n = 0 := by simpa using hn
    subst hn0
    rfl
  | cons c t ih =>
    intro n ha hn
    cases n with
    | zero => rfl
    | succ k =>
      have hc : utf8Size c = 1 := utf8Size_ascii (ha c (by simp))
      simp only [takeBytes, hc, Nat.le_add_left, if_pos, Nat.add_sub_cancel,
        List.take_succ_cons]
      rw [ih k (fun x hx => ha x (by simp [hx]))
        (by simp only [List.length_cons] at hn; omega)]
      rfl

lemma dropBytes_zero (cs : List Char) : dropBytes cs 0 = some cs := by
  cases cs <;> rfl

lemma drop_append_cons : ∀ (l : List Char) (x : Char) (t : List Char),
    (l ++ x :: t).drop (l.length + 1) = t := by
  intro l
  induction l with
  | nil => intro x t; rfl
  | cons c cs ih => intro x t; simpa using ih x t

lemma take_append_exact : ∀ (l t : List Char), (l ++ t).take l.length = l := by
  intro l
  induction l with
  | nil => intro t; rfl
  | cons c cs ih => intro t; simp [ih]

/-- C5 amended: for an all-ASCII string N!I@H whose components carry no
delimiter and whose host part the classifier returns on, parsing succeeds
and yields exactly Nick N, Ident I and a Host with raw text H.  (Outside
ASCII the byte slicing panics, see the counterexample; a host part hitting
the classifier panic of C4 also aborts parsing.) -/
theorem c5_parse_exact_ascii (N I H : List Char) (hh : Host)
    (hN1 : '!' ∉ N) (hN2 : '@' ∉ N) (hI1 : '!' ∉ I) (hI2 : '@' ∉ I)
    (hH1 : '!' ∉ H) (hH2 : '@' ∉ H)
    (hascii : ∀ c ∈ N ++ '!' :: (I ++ '@' :: H), c.toNat < 128)
    (hhost : hostFromStr (String.mk H) = some hh) :
    hostMaskFromStr (String.mk (N ++ '!' :: (I ++ '@' :: H))) =
      some (.ok ⟨String.mk N, String.mk I, hh, false⟩) ∧
    hh.raw = String.mk H := by
  refine ⟨?_, hostFromStr_raw hhost⟩
  have hlen : (N ++ '!' :: (I ++ '@' :: H)).length =
      N.length + I.length + H.length + 2 := by
    simp
    omega
  have hascii' := hascii
  have h1 : findPos (N ++ '!' :: (I ++ '@' :: H)) '!' = some N.length :=
    findPos_append hN1
  have hdrop1 : (N ++ '!' :: (I ++ '@' :: H)).drop (N.length + 1) = I ++ '@' :: H :=
    drop_append_cons N '!' (I ++ '@' :: H)
  have h2 : findPos (I ++ '@' :: H) '@' = some I.length := findPos_append hI2
  have hb1 : byteSlice (N ++ '!' :: (I ++ '@' :: H)) 0 N.length = some N := by
    unfold byteSlice
    rw [dropBytes_zero]
    simp only [Option.some_bind, Nat.sub_zero]
    rw [takeBytes_ascii _ _ hascii' (by rw [hlen]; omega)]
    rw [show N ++ '!' :: (I ++ '@' :: H) = N ++ ('!' :: (I ++ '@' :: H)) from rfl,
      take_append_exact]
  have hb2 : byteSlice (N ++ '!' :: (I ++ '@' :: H)) (N.length + 1)
      (N.length + 1 + I.length) = some I := by
    unfold byteSlice
    rw [dropBytes_ascii _ _ hascii' (by rw [hlen]; omega)]
    simp only [Option.some_bind, Nat.add_sub_cancel_left]
    rw [hdrop1]
    have ha2 : ∀ c ∈ I ++ '@' :: H, c.toNat < 128 := by
      intro c hc
      refine hascii' c ?_
      rw [← hdrop1] at hc
      exact List.mem_of_mem_drop hc
    rw [takeBytes_ascii _ _ ha2 (by simp)]
    rw [show I ++ '@' :: H = I ++ ('@' :: H) from rfl, take_append_exact]
  have hb3 : dropBytes (N ++ '!' :: (I ++ '@' :: H)) (N.length + 1 + I.length + 1) =
      some H := by
    rw [dropBytes_ascii _ _ hascii' (by rw [hlen]; omega)]
    have : (N ++ '!' :: (I ++ '@' :: H)).drop (N.length + 1 + I.length + 1) =
        ((N ++ '!' :: (I ++ '@' :: H)).drop (N.length + 1)).drop (I.length + 1) := by
      have harith : N.length + 1 + I.length + 1 = N.length + 1 + (I.length + 1) := by
        omega
      rw [harith, ← List.drop_drop]
    rw [this, hdrop1, drop_append_cons]
  simp only [hostMaskFromStr, h1, hdrop1, h2, hb1, hb2, hb3, hhost]
  rfl

/-- C5 amended witness: the spec's own example mask parses to its three
exact components. -/
theorem c5_parse_exact_ascii_witness :
    hostMaskFromStr "Disconsented!~quassel@irc.disconsented.com" =
      some (.ok ⟨"Disconsented", "~quassel",
        ⟨"irc.disconsented.com", none, false⟩, false⟩) ∧
    (Host.mk "irc.disconsented.com" none false).raw = "irc.disconsented.com" := by
  have h := c5_parse_exact_ascii "Disconsented".data "~quassel".data
    "irc.disconsented.com".data ⟨"irc.disconsented.com", none, false⟩
    (by decide) (by decide) (by decide) (by decide) (by decide) (by decide)
    (by decide) rfl
  exact ⟨h.1, h.2⟩

/-! ### Shape of the IPv4 pattern matches -/

lemma isWordChar_of_isDig {c : Char} (h : isDig c = true) : isWordChar c = true := by
  simp only [isDig, inRange, Bool.and_eq_true, decide_eq_true_eq] at h
  simp only [isWordChar, inRange, Bool.or_eq_true, Bool.and_eq_true, decide_eq_true_eq]
  omega

lemma canon1 {c1 : Char} (h : isDig c1 = true) : CanonOct [c1] := by
  simp only [isDig, inRange, Bool.and_eq_true, decide_eq_true_eq] at h
  refine ⟨?_, by simp, by simp, by simp, ?_⟩
  · intro c hc
    rw [List.mem_singleton] at hc
    subst hc
    simp only [isDig, inRange, Bool.and_eq_true, decide_eq_true_eq]
    omega
  · simp only [octValD, List.foldl, digitVal]
    omega

lemma canon2 {c1 c2 : Char} (h1 : inRange c1 49 57 = true) (h2 : isDig c2 = true) :
    CanonOct [c1, c2] := by
  simp only [isDig, inRange, Bool.and_eq_true, decide_eq_true_eq] at h1 h2
  refine ⟨?_, by simp, by simp, ?_, ?_⟩
  · intro c hc
    rcases List.mem_pair.mp hc with rfl | rfl <;>
      · simp only [isDig, inRange, Bool.and_eq_true, decide_eq_true_eq]
        omega
  · intro hh
    have h0 : c1 = '0' := Option.some.inj hh
    subst h0
    have : ('0' : Char).toNat = 48 := rfl
    omega
  · simp only [octValD, List.foldl, digitVal]
    omega

lemma canon25x {c3 : Char} (h : inRange c3 48 53 = true) : CanonOct ['2', '5', c3] := by
  simp only [inRange, Bool.and_eq_true, decide_eq_true_eq] at h
  refine ⟨?_, by simp, by simp, ?_, ?_⟩
  · intro c hc
    simp only [List.mem_cons, List.not_mem_nil, or_false] at hc
    rcases hc with rfl | rfl | rfl
    · decide
    · decide
    · simp only [isDig, inRange, Bool.and_eq_true, decide_eq_true_eq]
      omega
  · intro hh
    exact absurd (Option.some.inj hh) (by decide)
  · simp only [octValD, List.foldl, digitVal]
    have e2 : ('2' : Char).toNat = 50 := rfl
    have e5 : ('5' : Char).toNat = 53 := rfl
    omega

lemma canon2yd {c2 c3 : Char} (h1 : inRange c2 48 52 = true) (h2 : isDig c3 = true) :
    CanonOct ['2', c2, c3] := by
  simp only [isDig, inRange, Bool.and_eq_true, decide_eq_true_eq] at h1 h2
  refine ⟨?_, by simp, by simp, ?_, ?_⟩
  · intro c hc
    simp only [List.mem_cons, List.not_mem_nil, or_false] at hc
    rcases hc with rfl | rfl | rfl
    · decide
    · simp only [isDig, inRange, Bool.and_eq_true, decide_eq_true_eq]
      omega
    · simp only [isDig, inRange, Bool.and_eq_true, decide_eq_true_eq]
      omega
  · intro hh
    exact absurd (Option.some.inj hh) (by decide)
  · simp only [octValD, List.foldl, digitVal]
    have e2 : ('2' : Char).toNat = 50 := rfl
    omega

lemma canon1dd {c2 c3 : Char} (h1 : isDig c2 = true) (h2 : isDig c3 = true) :
    CanonOct ['1', c2, c3] := by
  simp only [isDig, inRange, Bool.and_eq_true, decide_eq_true_eq] at h1 h2
  refine ⟨?_, by simp, by simp, ?_, ?_⟩
  · intro c hc
    simp only [List.mem_cons, List.not_mem_nil, or_false] at hc
    rcases hc with rfl | rfl | rfl
    · decide
    · simp only [isDig, inRange, Bool.and_eq_true, decide_eq_true_eq]
      omega
    · simp only [isDig, inRange, Bool.and_eq_true, decide_eq_true_eq]
      omega
  · intro hh
    exact absurd (Option.some.inj hh) (by decide)
  · simp only [octValD, List.foldl, digitVal]
    have e1 : ('1' : Char).toNat = 49 := rfl
    omega

lemma octetCands_spec {cs o : List Char} (h : o ∈ octetCands cs) :
    CanonOct o ∧ cs = o ++ cs.drop o.length := by
  rcases cs with - | ⟨c1, cs1⟩
  · simp [octetCands] at h
  rcases cs1 with - | ⟨c2, cs2⟩
  · simp only [octetCands, List.mem_append] at h
    simp at h
    obtain ⟨hd, rfl⟩ := h
    exact ⟨canon1 hd, by simp⟩
  rcases cs2 with - | ⟨c3, cs3⟩
  · simp only [octetCands, List.mem_append] at h
    simp at h
    rcases h with ⟨⟨hd1, hd2⟩, rfl⟩ | ⟨hd, rfl⟩
    · exact ⟨canon2 hd1 hd2, by simp⟩
    · exact ⟨canon1 hd, by simp⟩
  · simp only [octetCands, List.mem_append] at h
    simp at h
    rcases h with
      (((⟨⟨⟨rfl, rfl⟩, hd3⟩, rfl⟩ | ⟨⟨⟨rfl, hd2⟩, hd3⟩, rfl⟩) | ⟨⟨⟨rfl, hd2⟩, hd3⟩, rfl⟩) |
        ⟨⟨hd1, hd2⟩, rfl⟩) | ⟨hd, rfl⟩
    · exact ⟨canon25x hd3, by simp⟩
    · exact ⟨canon2yd hd2 hd3, by simp⟩
    · exact ⟨canon1dd hd2 hd3, by simp⟩
    · exact ⟨canon2 hd1 hd2, by simp⟩
    · exact ⟨canon1 hd, by simp⟩

lemma matchGroupsAux_head_digit {n : Nat} {cs m : List Char}
    (h : matchGroupsAux (n + 1) cs = some m) :
    ∃ c t', cs = c :: t' ∧ isDig c = true := by
  simp only [matchGroupsAux] at h
  obtain ⟨o, ho, -⟩ := List.exists_of_findSome?_eq_some h
  obtain ⟨⟨hdig, hne, -⟩, hpre⟩ := octetCands_spec ho
  rcases o with - | ⟨c, o'⟩
  · exact absurd rfl hne
  · exact ⟨c, o' ++ cs.drop (c :: o').length, by simpa using hpre, hdig c (by simp)⟩

lemma getLast?_digit : ∀ {o : List Char}, o ≠ [] → (∀ c ∈ o, isDig c = true) →
    ∃ d, o.getLast? = some d ∧ isDig d = true := by
  intro o
  induction o with
  | nil => intro h; exact absurd rfl h
  | cons c t ih =>
    intro _ hdig
    rcases t with - | ⟨c2, t2⟩
    · exact ⟨c, rfl, hdig c (by simp)⟩
    · obtain ⟨d, hd1, hd2⟩ := ih (by simp) (fun x hx => hdig x (by simp [hx]))
      exact ⟨d, by rw [List.getLast?_cons_cons]; exact hd1, hd2⟩

lemma bdry_word_word {d c : Char} (hd : isWordChar d = true)
    (hc : isWordChar c = true) : bdry (some d) (some c) = false := by
  simp [bdry, hd, hc]

lemma matchGroupsAux_shape : ∀ (n : Nat) (cs m : List Char),
    matchGroupsAux (n + 1) cs = some m → GShape (n + 1) m := by
  intro n
  induction n with
  | zero =>
    intro cs m h
    simp only [matchGroupsAux] at h
    obtain ⟨o, ho, hbody⟩ := List.exists_of_findSome?_eq_some h
    obtain ⟨hcanon, -⟩ := octetCands_spec ho
    split at hbody
    · -- the separator arm
      rename_i s rest2 hrest
      by_cases hA : ((s = '.' || s = '-') && bdry (some s) rest2.head?) = true
      · rw [if_pos hA, Option.map_some', Option.some_orElse] at hbody
        rw [← Option.some.inj hbody]
        simp only [Bool.and_eq_true, Bool.or_eq_true, decide_eq_true_eq] at hA
        exact GShape.last_sep o s hcanon hA.1
      · rw [if_neg hA, Option.none_orElse] at hbody
        split at hbody
        · rw [Option.map_some'] at hbody
          rw [← Option.some.inj hbody, List.append_nil]
          exact GShape.last_nosep o hcanon
        · exact absurd hbody (by simp)
    · -- the empty-rest arm
      rw [Option.none_orElse] at hbody
      split at hbody
      · rw [Option.map_some'] at hbody
        rw [← Option.some.inj hbody, List.append_nil]
        exact GShape.last_nosep o hcanon
      · exact absurd hbody (by simp)
  | succ k ih =>
    intro cs m h
    rw [matchGroupsAux] at h
    obtain ⟨o, ho, hbody⟩ := List.exists_of_findSome?_eq_some h
    simp only [] at hbody
    obtain ⟨hcanon, -⟩ := octetCands_spec ho
    have hnosep : ∀ rest : List Char,
        (if bdry o.getLast? rest.head? = true then
           (matchGroupsAux (k + 1) rest).map fun m' => o ++ m'
         else none) = some m → GShape (k + 2) m := by
      intro rest hno
      split at hno
      · rename_i hb
        obtain ⟨m', hm', -⟩ := Option.map_eq_some'.mp hno
        obtain ⟨c, t', rfl, hdigc⟩ := matchGroupsAux_head_digit hm'
        obtain ⟨d, hd1, hd2⟩ := getLast?_digit hcanon.2.1 hcanon.1
        rw [hd1] at hb
        simp only [List.head?_cons] at hb
        rw [bdry_word_word (isWordChar_of_isDig hd2) (isWordChar_of_isDig hdigc)]
          at hb
        exact absurd hb (by simp)
      · exact absurd hno (by simp)
    split at hbody
    · -- the separator arm
      rename_i s rest2 hrest
      rw [hrest] at hbody
      by_cases hA : ((s = '.' || s = '-') && bdry (some s) rest2.head?) = true
      · rw [if_pos hA] at hbody
        rcases hm : matchGroupsAux (k + 1) rest2 with - | m'
        · rw [hm, Option.map_none', Option.none_orElse] at hbody
          exact hnosep (s :: rest2) hbody
        · rw [hm, Option.map_some', Option.some_orElse] at hbody
          rw [← Option.some.inj hbody]
          simp only [Bool.and_eq_true, Bool.or_eq_true, decide_eq_true_eq] at hA
          exact GShape.cons k o s m' hcanon hA.1 (ih rest2 m' hm)
      · rw [if_neg hA, Option.none_orElse] at hbody
        exact hnosep (s :: rest2) hbody
    · -- the empty-rest arm
      rename_i hrest
      rw [hrest, Option.none_orElse] at hbody
      have hred : matchGroupsAux (k + 1) ([] : List Char) = none := by
        simp [matchGroupsAux, octetCands]
      rw [hred, Option.map_none'] at hbody
      split at hbody
      · exact absurd hbody (by simp)
      · exact absurd hbody (by simp)

lemma ipv4Find_exists : ∀ {cs m : List Char}, ipv4Find cs = some m →
    ∃ cs', matchGroupsAux 4 cs' = some m := by
  intro cs
  induction cs with
  | nil => intro m h; exact ⟨[], h⟩
  | cons c t ih =>
    intro m h
    simp only [ipv4Find] at h
    split at h
    · rename_i m' heq
      exact ⟨c :: t, by rw [heq, Option.some.inj h]⟩
    · exact ih h

lemma gshape_four {m : List Char} (h : GShape 4 m) :
    ∃ o1 s1 o2 s2 o3 s3 o4 t,
      CanonOct o1 ∧ CanonOct o2 ∧ CanonOct o3 ∧ CanonOct o4 ∧
      (s1 = '.' ∨ s1 = '-') ∧ (s2 = '.' ∨ s2 = '-') ∧ (s3 = '.' ∨ s3 = '-') ∧
      (t = [] ∨ t = ['.'] ∨ t = ['-']) ∧
      m = o1 ++ s1 :: (o2 ++ s2 :: (o3 ++ s3 :: (o4 ++ t))) := by
  cases h with
  | cons n1 o1 s1 m1 hc1 hs1 h1 =>
  cases h1 with
  | cons n2 o2 s2 m2 hc2 hs2 h2 =>
  cases h2 with
  | cons n3 o3 s3 m3 hc3 hs3 h3 =>
  cases h3 with
  | last_nosep o4 hc4 =>
    exact ⟨o1, s1, o2, s2, o3, s3, m3, [], hc1, hc2, hc3, hc4, hs1, hs2, hs3,
      Or.inl rfl, by simp⟩
  | last_sep o4 s4 hc4 hs4 =>
    rcases hs4 with rfl | rfl
    · exact ⟨o1, s1, o2, s2, o3, s3, o4, ['.'], hc1, hc2, hc3, hc4, hs1, hs2, hs3,
        Or.inr (Or.inl rfl), rfl⟩
    · exact ⟨o1, s1, o2, s2, o3, s3, o4, ['-'], hc1, hc2, hc3, hc4, hs1, hs2, hs3,
        Or.inr (Or.inr rfl), rfl⟩

lemma takeWhile_dropWhile_append {p : Char → Bool} :
    ∀ (o t : List Char), (∀ c ∈ o, p c = true) →
      (∀ c, t.head? = some c → p c = false) →
      (o ++ t).takeWhile p = o ∧ (o ++ t).dropWhile p = t := by
  intro o
  induction o with
  | nil =>
    intro t _ ht
    rcases t with - | ⟨c, t'⟩
    · exact ⟨rfl, rfl⟩
    · have hc := ht c rfl
      simp [List.takeWhile_cons, List.dropWhile_cons, hc]
  | cons c o' ih =>
    intro t ho ht
    have hc : p c = true := ho c (by simp)
    have hr := ih t (fun x hx => ho x (by simp [hx])) ht
    simp [List.takeWhile_cons, List.dropWhile_cons, hc, hr.1, hr.2]

lemma readOctet_canon {o t : List Char} (hc : CanonOct o)
    (ht : ∀ c, t.head? = some c → isDig c = false) :
    readOctet (o ++ t) = some (octValD o, t) := by
  obtain ⟨hdig, hne, hlen, hzero, hval⟩ := hc
  obtain ⟨h1, h2⟩ := takeWhile_dropWhile_append o t hdig ht
  have he : o.isEmpty = false := by
    cases o
    · exact absurd rfl hne
    · rfl
  have hz : ¬(o.head? = some '0' ∧ 1 < o.length) := by
    rintro ⟨a, b⟩
    rw [hzero a] at b
    exact absurd b (by norm_num)
  simp [readOctet, h1, h2, he, Nat.not_lt.mpr hlen, hz, Nat.not_lt.mpr hval]

lemma dotHead (x : List Char) :
    ∀ c, (('.' : Char) :: x).head? = some c → isDig c = false := by
  intro c hc
  rw [← Option.some.inj hc]
  decide

lemma readDot_cons (r : List Char) : readDot ('.' :: r) = some r := by
  simp [readDot]

lemma readIpv4Part_quad {o1 o2 o3 o4 : List Char} (t : List Char)
    (h1 : CanonOct o1) (h2 : CanonOct o2) (h3 : CanonOct o3) (h4 : CanonOct o4)
    (ht : ∀ c, t.head? = some c → isDig c = false) :
    readIpv4Part (o1 ++ '.' :: (o2 ++ '.' :: (o3 ++ '.' :: (o4 ++ t)))) =
      some ((octValD o1, octValD o2, octValD o3, octValD o4), t) := by
  have e1 := readOctet_canon h1 (dotHead (o2 ++ '.' :: (o3 ++ '.' :: (o4 ++ t))))
  have e2 := readOctet_canon h2 (dotHead (o3 ++ '.' :: (o4 ++ t)))
  have e3 := readOctet_canon h3 (dotHead (o4 ++ t))
  have e4 := readOctet_canon h4 ht
  simp only [readIpv4Part, e1, Option.some_bind, readDot_cons, e2, e3, e4,
    Option.map_some']

lemma normMap_digits {o : List Char} (h : ∀ c ∈ o, isDig c = true) :
    o.map (fun c => if c = '-' then '.' else c) = o := by
  induction o with
  | nil => rfl
  | cons c t ih =>
    have hc := h c (by simp)
    have hne : ¬c = '-' := by
      intro heq
      subst heq
      exact absurd hc (by decide)
    simp only [List.map_cons, if_neg hne]
    rw [ih (fun x hx => h x (by simp [hx]))]

lemma normSep {s : Char} (h : s = '.' ∨ s = '-') :
    (if s = '-' then '.' else s) = '.' := by
  rcases h with rfl | rfl
  · rfl
  · rfl

lemma normChars_quad {o1 o2 o3 o4 : List Char} (r : List Char) {s1 s2 s3 : Char}
    (hc1 : CanonOct o1) (hc2 : CanonOct o2) (hc3 : CanonOct o3) (hc4 : CanonOct o4)
    (hs1 : s1 = '.' ∨ s1 = '-') (hs2 : s2 = '.' ∨ s2 = '-') (hs3 : s3 = '.' ∨ s3 = '-') :
    normChars (o1 ++ s1 :: (o2 ++ s2 :: (o3 ++ s3 :: (o4 ++ r)))) =
      o1 ++ '.' :: (o2 ++ '.' :: (o3 ++ '.' :: (o4 ++
        r.map (fun c => if c = '-' then '.' else c)))) := by
  simp only [normChars, List.map_append, List.map_cons]
  rw [normMap_digits hc1.1, normMap_digits hc2.1, normMap_digits hc3.1,
    normMap_digits hc4.1, normSep hs1, normSep hs2, normSep hs3]

lemma getLast?_tail_chain (o : List Char) (s : Char) {r : List Char} (hr : r ≠ []) :
    (o ++ s :: r).getLast? = r.getLast? := by
  rw [List.getLast?_append_of_ne_nil _ (by simp)]
  rcases r with - | ⟨x, r'⟩
  · exact absurd rfl hr
  · exact List.getLast?_cons_cons ..

lemma rustIpv4Parse_quad {o1 o2 o3 o4 : List Char}
    (h1 : CanonOct o1) (h2 : CanonOct o2) (h3 : CanonOct o3) (h4 : CanonOct o4) :
    rustIpv4Parse (o1 ++ '.' :: (o2 ++ '.' :: (o3 ++ '.' :: o4))) =
      some (octValD o1, octValD o2, octValD o3, octValD o4) := by
  have e := readIpv4Part_quad [] h1 h2 h3 h4 (by intro c hc; simp at hc)
  rw [List.append_nil] at e
  unfold rustIpv4Parse
  rw [e]

lemma rustIpAddrParse_quadDot {o1 o2 o3 o4 : List Char}
    (h1 : CanonOct o1) (h2 : CanonOct o2) (h3 : CanonOct o3) (h4 : CanonOct o4) :
    rustIpAddrParse (o1 ++ '.' :: (o2 ++ '.' :: (o3 ++ '.' :: (o4 ++ ['.'])))) =
      none := by
  have e := readIpv4Part_quad ['.'] h1 h2 h3 h4 (dotHead [])
  have hv4 : rustIpv4Parse (o1 ++ '.' :: (o2 ++ '.' :: (o3 ++ '.' :: (o4 ++ ['.'])))) =
      none := by
    unfold rustIpv4Parse
    rw [e]
  have hga : readGroupsAux 8 0 (o1 ++ '.' :: (o2 ++ '.' :: (o3 ++ '.' :: (o4 ++ ['.'])))) =
      ([octValD o1 * 256 + octValD o2, octValD o3 * 256 + octValD o4], true, ['.']) := by
    rw [readGroupsAux]
    simp only [sepThen, if_pos rfl, e]
    norm_num
  have hv6 : rustIpv6Parse (o1 ++ '.' :: (o2 ++ '.' :: (o3 ++ '.' :: (o4 ++ ['.'])))) =
      none := by
    simp [rustIpv6Parse, hga]
  simp [rustIpAddrParse, hv4, hv6]

/-- C6 amended: for every host string whose leftmost four-octet match ends
in a trailing dot, the dot is stripped and dashes are normalized to dots, so
the embedded IPv4 address is still recorded; a match ending in a trailing
dash is not stripped, its normalization ends in a dot that fails numeric
parsing, and no address is recorded. -/
theorem c6_trailing_sep (s : String) (m : List Char)
    (hf : ipv4Find s.data = some m) :
    (m.getLast? = some '.' →
      ∃ a b c d, rustIpv4Parse (normChars m.dropLast) = some (a, b, c, d) ∧
        hostFromStr s = some ⟨s, some (.v4 a b c d), false⟩) ∧
    (m.getLast? = some '-' → hostFromStr s = some ⟨s, none, false⟩) := by
  obtain ⟨cs', hm⟩ := ipv4Find_exists hf
  obtain ⟨o1, s1, o2, s2, o3, s3, o4, t, hc1, hc2, hc3, hc4, hs1, hs2, hs3, ht, hme⟩ :=
    gshape_four (matchGroupsAux_shape 3 cs' m hm)
  have hne4 : o4 ++ t ≠ [] := by
    intro hnil
    exact hc4.2.1 (List.append_eq_nil.mp hnil).1
  have hlast : m.getLast? = (o4 ++ t).getLast? := by
    rw [hme, getLast?_tail_chain _ _ (by simp), getLast?_tail_chain _ _ (by simp),
      getLast?_tail_chain _ _ hne4]
  rcases ht with rfl | rfl | rfl
  · rw [List.append_nil] at hlast hme
    obtain ⟨d, hd1, hd2⟩ := getLast?_digit hc4.2.1 hc4.1
    rw [hd1] at hlast
    constructor
    · intro hdot
      rw [hlast] at hdot
      have hd : d = '.' := Option.some.inj hdot
      subst hd
      exact absurd hd2 (by decide)
    · intro hdash
      rw [hlast] at hdash
      have hd : d = '-' := Option.some.inj hdash
      subst hd
      exact absurd hd2 (by decide)
  · have hdot : m.getLast? = some '.' := by
      rw [hlast, List.getLast?_append_of_ne_nil _ (by simp)]
      rfl
    constructor
    · intro _
      have hre : m.dropLast = o1 ++ s1 :: (o2 ++ s2 :: (o3 ++ s3 :: o4)) := by
        rw [hme, show o1 ++ s1 :: (o2 ++ s2 :: (o3 ++ s3 :: (o4 ++ ['.']))) =
          (o1 ++ s1 :: (o2 ++ s2 :: (o3 ++ s3 :: o4))) ++ ['.'] by simp,
          List.dropLast_concat]
      have hn := normChars_quad [] hc1 hc2 hc3 hc4 hs1 hs2 hs3
      simp only [List.map_nil, List.append_nil] at hn
      refine ⟨octValD o1, octValD o2, octValD o3, octValD o4, ?_, ?_⟩
      · rw [hre, hn]
        exact rustIpv4Parse_quad hc1 hc2 hc3 hc4
      · have hp := rustIpv4Parse_quad hc1 hc2 hc3 hc4
        simp only [hostFromStr, hf]
        rw [if_pos hdot, hre, hn]
        simp [rustIpAddrParse, hp]
    · intro hdash
      rw [hdot] at hdash
      exact absurd (Option.some.inj hdash) (by decide)
  · have hdash : m.getLast? = some '-' := by
      rw [hlast, List.getLast?_append_of_ne_nil _ (by simp)]
      rfl
    constructor
    · intro hdot
      rw [hdash] at hdot
      exact absurd (Option.some.inj hdot) (by decide)
    · intro _
      have hcond : ¬m.getLast? = some '.' := by
        rw [hdash]
        intro h'
        exact absurd (Option.some.inj h') (by decide)
      have hn := normChars_quad ['-'] hc1 hc2 hc3 hc4 hs1 hs2 hs3
      simp only [List.map_cons, List.map_nil, ite_true] at hn
      simp only [hostFromStr, hf]
      rw [if_neg hcond, hme, hn, rustIpAddrParse_quadDot hc1 hc2 hc3 hc4]

/-- C6 amended witness: the spec's dashed example host records 87.248.67.133
via the trailing-dot path. -/
theorem c6_trailing_sep_witness :
    hostFromStr "static-ip-87-248-67-133.promax.media.pl" =
      some ⟨"static-ip-87-248-67-133.promax.media.pl",
        some (.v4 87 248 67 133), false⟩ := by
  obtain ⟨a, b, c, d, h1, h2⟩ :=
    (c6_trailing_sep "static-ip-87-248-67-133.promax.media.pl" _ rfl).1 rfl
  have h4 : (a, b, c, d) = ((87 : Nat), (248 : Nat), (67 : Nat), (133 : Nat)) := by
    apply Option.some.inj
    rw [← h1]
    rfl
  simp only [Prod.mk.injEq] at h4
  obtain ⟨rfl, rfl, rfl, rfl⟩ := h4
  exact h2

end IdentityTraversal
